import Mathlib

/-!
Verification of the SSE streaming pipeline of the notebooklm-clone repository
(frontend/lib/utils/sse.ts and the useChat hook), against its natural-language
specification.

Strings are modelled as `List Char` (JS strings; `chars` converts a Lean string
literal). Dynamic JS values decoded from JSON are modelled by the inductive
`Json`; a JSON number is kept as its source lexeme, since no claim depends on
floating-point semantics. JS exceptions are modelled with `Except JsErr`;
functions of the source that cannot throw are embedded as plain total
functions, and `JSON.parse` (which throws on malformed input) is modelled by
the `Option`-valued `jsonParse` together with the `Except`-valued `jsonParseE`
used to track exception flow where a claim is about throwing.
-/

/-- Convert a Lean string literal to the `List Char` representation used
throughout this development for JS strings. -/
def chars (s : String) : List Char := s.data

/-- Whitespace recognised by JS `String.prototype.trim` and by the regex
class `\s` (ASCII whitespace, NBSP, BOM, Unicode space separators and the
line separators U+2028/U+2029). -/
def isJsSpace (c : Char) : Bool :=
  c == ' ' || c == '\t' || c == '\n' || c == '\r' ||
  c == Char.ofNat 11 || c == Char.ofNat 12 ||
  c == Char.ofNat 0xa0 || c == Char.ofNat 0x1680 ||
  (0x2000 ≤ c.toNat && c.toNat ≤ 0x200a) ||
  c == Char.ofNat 0x2028 || c == Char.ofNat 0x2029 ||
  c == Char.ofNat 0x202f || c == Char.ofNat 0x205f ||
  c == Char.ofNat 0x3000 || c == Char.ofNat 0xfeff

/-- Drop the longest suffix of elements satisfying `p` (helper for `jsTrim`). -/
def dropTrailing (p : Char → Bool) (s : List Char) : List Char :=
  (s.reverse.dropWhile p).reverse

/-- JS `String.prototype.trim`. -/
def jsTrim (s : List Char) : List Char :=
  dropTrailing isJsSpace (s.dropWhile isJsSpace)

/-- JS `String.prototype.toLowerCase`, restricted to ASCII case mapping
(sufficient for every comparison the source performs). -/
def jsToLower (s : List Char) : List Char := s.map Char.toLower

/-- Dynamic JS values produced by `JSON.parse`. A number keeps its lexeme. -/
inductive Json where
  | null : Json
  | bool (b : Bool) : Json
  | num (lexeme : List Char) : Json
  | str (s : List Char) : Json
  | arr (elements : List Json) : Json
  | obj (fields : List (List Char × Json)) : Json

instance : Inhabited Json := ⟨Json.null⟩

/-- Property read on a parsed JSON object: with duplicate keys, `JSON.parse`
keeps the value of the last occurrence. -/
def lookupLast (fields : List (List Char × Json)) (key : List Char) : Option Json :=
  fields.foldl (fun acc f => if f.1 == key then some f.2 else acc) none

/-- JS property access `v.key` (`none` models `undefined`): only objects carry
the named properties the source reads; on any other value the accesses the
source performs yield `undefined`. -/
def jsGet (v : Json) (key : List Char) : Option Json :=
  match v with
  | Json.obj fields => lookupLast fields key
  | _ => none

/-- Does a JSON number lexeme denote zero (all mantissa digits are 0)? -/
def isZeroLexeme (lexeme : List Char) : Bool :=
  (lexeme.takeWhile (fun c => c != 'e' && c != 'E')).all
    (fun c => !c.isDigit || c == '0')

/-- JS falsiness of a parsed JSON value. -/
def jsFalsy : Json → Bool
  | Json.null => true
  | Json.bool b => !b
  | Json.num lexeme => isZeroLexeme lexeme
  | Json.str s => s.isEmpty
  | Json.arr _ => false
  | Json.obj _ => false

/-- Values with `typeof v === "object"` that are also truthy (non-null objects
and arrays): the shapes that pass the source's `!v || typeof v !== "object"`
guards. -/
def isObjLike : Json → Bool
  | Json.arr _ => true
  | Json.obj _ => true
  | _ => false

/-- Whitespace accepted between JSON tokens by `JSON.parse`. -/
def isJsonWs (c : Char) : Bool :=
  c == ' ' || c == '\t' || c == '\n' || c == '\r'

/-- Skip inter-token whitespace. -/
def skipJsonWs (s : List Char) : List Char := s.dropWhile isJsonWs

/-- Value of a hexadecimal digit. -/
def hexVal (c : Char) : Option Nat :=
  let n := c.toNat
  if 0x30 ≤ n && n ≤ 0x39 then some (n - 0x30)
  else if 0x61 ≤ n && n ≤ 0x66 then some (n - 0x61 + 10)
  else if 0x41 ≤ n && n ≤ 0x46 then some (n - 0x41 + 10)
  else none

/-- Combine four hex digits into a code unit. -/
def hex4 (h1 h2 h3 h4 : Char) : Option Nat := do
  let v1 ← hexVal h1
  let v2 ← hexVal h2
  let v3 ← hexVal h3
  let v4 ← hexVal h4
  some (((v1 * 16 + v2) * 16 + v3) * 16 + v4)

/-- Prefix a successful string-scan result with one character. -/
def consFst (c : Char) : Option (List Char × List Char) → Option (List Char × List Char)
  | some (t, r) => some (c :: t, r)
  | none => none

/-- Scan the body of a JSON string literal after the opening quote, returning
the decoded text and the input after the closing quote. Escape sequences
follow the JSON grammar; a `\u` surrogate pair is combined into one scalar
(a lone surrogate, which a JS string can hold but a Lean `Char` cannot, is
mapped through `Char.ofNat`). The fuel argument (one unit per consumed
character suffices) only makes the recursion structural. -/
def scanJsonString : Nat → List Char → Option (List Char × List Char)
  | 0, _ => none
  | _, [] => none
  | Nat.succ fuel, c :: rest =>
    if c == '"' then some ([], rest)
    else if c == '\\' then
      match rest with
      | [] => none
      | e :: rest2 =>
        if e == '"' then consFst '"' (scanJsonString fuel rest2)
        else if e == '\\' then consFst '\\' (scanJsonString fuel rest2)
        else if e == '/' then consFst '/' (scanJsonString fuel rest2)
        else if e == 'b' then consFst (Char.ofNat 8) (scanJsonString fuel rest2)
        else if e == 'f' then consFst (Char.ofNat 12) (scanJsonString fuel rest2)
        else if e == 'n' then consFst '\n' (scanJsonString fuel rest2)
        else if e == 'r' then consFst '\r' (scanJsonString fuel rest2)
        else if e == 't' then consFst '\t' (scanJsonString fuel rest2)
        else if e == 'u' then
          match rest2 with
          | h1 :: h2 :: h3 :: h4 :: rest3 =>
            match hex4 h1 h2 h3 h4 with
            | none => none
            | some v =>
              if 0xd800 ≤ v && v ≤ 0xdbff then
                match rest3 with
                | '\\' :: 'u' :: g1 :: g2 :: g3 :: g4 :: rest4 =>
                  match hex4 g1 g2 g3 g4 with
                  | some w =>
                    if 0xdc00 ≤ w && w ≤ 0xdfff then
                      consFst (Char.ofNat (0x10000 + (v - 0xd800) * 0x400 + (w - 0xdc00)))
                        (scanJsonString fuel rest4)
                    else consFst (Char.ofNat v) (scanJsonString fuel rest3)
                  | none => consFst (Char.ofNat v) (scanJsonString fuel rest3)
                | _ => consFst (Char.ofNat v) (scanJsonString fuel rest3)
              else consFst (Char.ofNat v) (scanJsonString fuel rest3)
          | _ => none
        else none
    else if c.toNat < 0x20 then none
    else consFst c (scanJsonString fuel rest)

/-- Longest digit run at the head of the input, and the rest. -/
def takeDigits (s : List Char) : List Char × List Char :=
  (s.takeWhile Char.isDigit, s.dropWhile Char.isDigit)

/-- Scan the optional fraction part of a JSON number. -/
def scanFrac (s : List Char) : Option (List Char × List Char) :=
  match s with
  | '.' :: r =>
    let (ds, r2) := takeDigits r
    if ds.isEmpty then none else some ('.' :: ds, r2)
  | _ => some ([], s)

/-- Scan the optional exponent part of a JSON number. -/
def scanExp (s : List Char) : Option (List Char × List Char) :=
  match s with
  | c :: r =>
    if c == 'e' || c == 'E' then
      let (sign, r2) := match r with
        | '+' :: r3 => ((['+'] : List Char), r3)
        | '-' :: r3 => ((['-'] : List Char), r3)
        | _ => ([], r)
      let (ds, r3) := takeDigits r2
      if ds.isEmpty then none else some (c :: (sign ++ ds), r3)
    else some ([], s)
  | [] => some ([], [])

/-- Scan a JSON number lexeme (JSON grammar: optional minus, integer part
without leading zeros, optional fraction, optional exponent). -/
def scanJsonNumber (s : List Char) : Option (List Char × List Char) := do
  let (neg, s1) := match s with
    | '-' :: r => ((['-'] : List Char), r)
    | _ => ([], s)
  let (ip, s2) ← match s1 with
    | '0' :: r => some ((['0'] : List Char), r)
    | c :: r =>
      if c.isDigit then
        let (ds, r2) := takeDigits r
        some (c :: ds, r2)
      else none
    | [] => none
  let (fp, s3) ← scanFrac s2
  let (ep, s4) ← scanExp s3
  some (neg ++ ip ++ fp ++ ep, s4)

mutual

/-- Parse one JSON value at the head of the input (which must already be
positioned at the value). Fuel only bounds recursion depth; the budget
passed by `jsonParse` is generous enough for every input. -/
def parseJsonValue : Nat → List Char → Option (Json × List Char)
  | 0, _ => none
  | Nat.succ fuel, s =>
    match s with
    | [] => none
    | c :: rest =>
      if c == '"' then
        match scanJsonString (rest.length + 1) rest with
        | some (t, r) => some (Json.str t, r)
        | none => none
      else if c == '[' then
        match skipJsonWs rest with
        | ']' :: r => some (Json.arr [], r)
        | s1 =>
          match parseJsonElements fuel s1 with
          | some (es, r) => some (Json.arr es, r)
          | none => none
      else if c == '\x7b' then
        match skipJsonWs rest with
        | '\x7d' :: r => some (Json.obj [], r)
        | s1 =>
          match parseJsonMembers fuel s1 with
          | some (fs, r) => some (Json.obj fs, r)
          | none => none
      else if (chars "true").isPrefixOf s then some (Json.bool true, s.drop 4)
      else if (chars "false").isPrefixOf s then some (Json.bool false, s.drop 5)
      else if (chars "null").isPrefixOf s then some (Json.null, s.drop 4)
      else
        match scanJsonNumber s with
        | some (lexeme, r) => some (Json.num lexeme, r)
        | none => none

/-- Parse the comma-separated elements of a non-empty JSON array, up to and
including the closing bracket. -/
def parseJsonElements : Nat → List Char → Option (List Json × List Char)
  | 0, _ => none
  | Nat.succ fuel, s =>
    match parseJsonValue fuel (skipJsonWs s) with
    | none => none
    | some (v, r) =>
      match skipJsonWs r with
      | ',' :: r3 =>
        match parseJsonElements fuel r3 with
        | some (vs, r4) => some (v :: vs, r4)
        | none => none
      | ']' :: r3 => some ([v], r3)
      | _ => none

/-- Parse the comma-separated members of a non-empty JSON object, up to and
including the closing brace. -/
def parseJsonMembers : Nat → List Char → Option (List (List Char × Json) × List Char)
  | 0, _ => none
  | Nat.succ fuel, s =>
    match skipJsonWs s with
    | '"' :: r =>
      match scanJsonString (r.length + 1) r with
      | none => none
      | some (k, r1) =>
        match skipJsonWs r1 with
        | ':' :: r2 =>
          match parseJsonValue fuel (skipJsonWs r2) with
          | none => none
          | some (v, r3) =>
            match skipJsonWs r3 with
            | ',' :: r4 =>
              match parseJsonMembers fuel r4 with
              | some (fs, r5) => some ((k, v) :: fs, r5)
              | none => none
            | '\x7d' :: r4 => some ([(k, v)], r4)
            | _ => none
        | _ => none
    | _ => none

end

/-- JS `JSON.parse`, with `none` for the `SyntaxError` throw. The fuel budget
`2 * length + 4` dominates the recursion depth, which grows by at most two
per consumed character. -/
def jsonParse (s : List Char) : Option Json :=
  match parseJsonValue (2 * s.length + 4) (skipJsonWs s) with
  | some (v, r) => if (skipJsonWs r).isEmpty then some v else none
  | none => none

/-- JS exceptions that the modelled code can raise. -/
inductive JsErr where
  | typeError : JsErr
  | syntaxError : JsErr
deriving DecidableEq

/-- Exception-explicit view of `JSON.parse`: malformed input throws a
`SyntaxError` instead of returning. -/
def jsonParseE (s : List Char) : Except JsErr Json :=
  match jsonParse s with
  | some v => Except.ok v
  | none => Except.error JsErr.syntaxError

/-- Text of one content part (sse.ts `extractMessageContent`, array case): a
string part passes through, an object part contributes its `text` field when
that is a string, anything else contributes the empty string. -/
def contentPartText : Json → List Char
  | Json.str s => s
  | Json.obj fields =>
    match lookupLast fields (chars "text") with
    | some (Json.str t) => t
    | _ => []
  | _ => []

/-- sse.ts `extractMessageContent`: string content passes through; array
content maps parts to text, joins and trims, with an empty result becoming
null; any other shape is null. The argument is the value of the message's
`content` property (`none` when absent). -/
def extractMessageContent : Option Json → Option (List Char)
  | some (Json.str s) => some s
  | some (Json.arr parts) =>
    let extractedText := jsTrim (parts.map contentPartText).flatten
    if extractedText.isEmpty then none else some extractedText
  | _ => none

/-- sse.ts `isAssistantMessage`: a falsy `type` (absent, empty string, and by
the cast any falsy value) defaults to true; otherwise the type must be the
string `"ai"` or `"assistant"` (`AI_TYPES.includes` compares strictly). -/
def isAssistantMessage (messageType : Option Json) : Bool :=
  match messageType with
  | none => true
  | some j =>
    if jsFalsy j then true
    else
      match j with
      | Json.str s => s == chars "ai" || s == chars "assistant"
      | _ => false

/-- Consume `pat` case-insensitively at the head of `s` (for the `/i` regex
flag), returning the remainder. -/
def ciConsume (pat s : List Char) : Option (List Char) :=
  if jsToLower (s.take pat.length) == jsToLower pat then some (s.drop pat.length)
  else none

/-- Tail of the route-line regex after `[:=]\s*`: the alternation
`(direct|retrieve)` followed by an optional period and the end of the input.
The result is the captured group lowered, as the source computes it. The
alternatives start with distinct letters, so no regex backtracking between
them is observable. -/
def routeKeywordTail (s : List Char) : Option (List Char) :=
  match ciConsume (chars "direct") s with
  | some r => if r.isEmpty || r == ['.'] then some (chars "direct") else none
  | none =>
    match ciConsume (chars "retrieve") s with
    | some r => if r.isEmpty || r == ['.'] then some (chars "retrieve") else none
    | none => none

/-- The regex match of sse.ts `extractRouteDecision`, pattern
`route\s*[:=]\s*(direct|retrieve)\.?` anchored at both ends with the `i`
flag, applied to the trimmed text. Greedy `\s*` before a non-space token is
exact, so the matcher needs no backtracking. -/
def matchRouteLine (s : List Char) : Option (List Char) :=
  match ciConsume (chars "route") s with
  | none => none
  | some s1 =>
    match s1.dropWhile isJsSpace with
    | [] => none
    | c :: s3 =>
      if c == ':' || c == '=' then routeKeywordTail (s3.dropWhile isJsSpace)
      else none

/-- The fenced-code-block regex of sse.ts `extractRouteDecision`, pattern
three backticks, optional `json`, lazily captured body, three closing
backticks at the end (`i` flag): returns the captured group trimmed, or
`none` when the regex fails or captures an empty (falsy) group, in which
case the source pushes no second candidate. The `\s*` context around the
lazy group together with the source's own `.trim()` amounts to trimming the
enclosed body; when the body starts with `json` the with-`json` parse
succeeds whenever the without-`json` parse does, so the greedy optional
group needs no backtracking. -/
def fencedGroup (s : List Char) : Option (List Char) :=
  if (chars "```").isPrefixOf s then
    let rest := s.drop 3
    let rest2 := if jsToLower (rest.take 4) == chars "json" then rest.drop 4 else rest
    if 3 ≤ rest2.length && (chars "```").isSuffixOf rest2 then
      let g := jsTrim (rest2.take (rest2.length - 3))
      if g.isEmpty then none else some g
    else none
  else none

/-- Body of the candidate loop of `extractRouteDecision` after a successful
`JSON.parse`: a non-null non-array object whose `route` field is exactly
`"direct"` or `"retrieve"` and whose keys all lie in
`{route, reason, explanation}`. -/
def routeFromParsed : Json → Option (List Char)
  | Json.obj fields =>
    match lookupLast fields (chars "route") with
    | some (Json.str routeValue) =>
      if routeValue == chars "direct" || routeValue == chars "retrieve" then
        if fields.all (fun f =>
            f.1 == chars "route" || f.1 == chars "reason" || f.1 == chars "explanation") then
          some routeValue
        else none
      else none
    | _ => none
  | _ => none

/-- The candidate loop of `extractRouteDecision`: try `JSON.parse` on each
candidate, swallowing the `SyntaxError` (the `catch` arm continues to the
next candidate), and return the first route value that passes the checks. -/
def tryRouteCandidates : List (List Char) → Option (List Char)
  | [] => none
  | c :: cs =>
    match jsonParse c with
    | none => tryRouteCandidates cs
    | some parsed =>
      match routeFromParsed parsed with
      | some routeValue => some routeValue
      | none => tryRouteCandidates cs

/-- Exception-explicit form of `tryRouteCandidates`: the `try`/`catch` around
the parse is the only handler, and it catches everything the body throws. -/
def tryRouteCandidatesE : List (List Char) → Except JsErr (Option (List Char))
  | [] => Except.ok none
  | c :: cs =>
    match jsonParseE c with
    | Except.error _ => tryRouteCandidatesE cs
    | Except.ok parsed =>
      match routeFromParsed parsed with
      | some routeValue => Except.ok (some routeValue)
      | none => tryRouteCandidatesE cs

/-- sse.ts `extractRouteDecision`. -/
def extractRouteDecision (messageText : List Char) : Option (List Char) :=
  let trimmedText := jsTrim messageText
  if trimmedText.isEmpty then none
  else
    let lowercaseText := jsToLower trimmedText
    if lowercaseText == chars "direct" || lowercaseText == chars "retrieve" then
      some lowercaseText
    else
      match matchRouteLine trimmedText with
      | some routeLine => some routeLine
      | none =>
        tryRouteCandidates (trimmedText ::
          (match fencedGroup trimmedText with
           | some g => [g]
           | none => []))

/-- Exception-explicit form of `extractRouteDecision`. -/
def extractRouteDecisionE (messageText : List Char) : Except JsErr (Option (List Char)) :=
  let trimmedText := jsTrim messageText
  if trimmedText.isEmpty then Except.ok none
  else
    let lowercaseText := jsToLower trimmedText
    if lowercaseText == chars "direct" || lowercaseText == chars "retrieve" then
      Except.ok (some lowercaseText)
    else
      match matchRouteLine trimmedText with
      | some routeLine => Except.ok (some routeLine)
      | none =>
        tryRouteCandidatesE (trimmedText ::
          (match fencedGroup trimmedText with
           | some g => [g]
           | none => []))

/-- sse.ts `isInternalRouteDecisionPayload`: a recognised route decision that
is at most 240 characters after trimming. -/
def isInternalRouteDecisionPayload (messageText : List Char) : Bool :=
  match extractRouteDecision messageText with
  | none => false
  | some _ => decide ((jsTrim messageText).length ≤ 240)

/-- sse.ts `extractMessageArray`: the event data itself when it is an array,
else the data's `messages` field when that is an array. -/
def extractMessageArray : Option Json → Option (List Json)
  | some (Json.arr xs) => some xs
  | some (Json.obj fields) =>
    match lookupLast fields (chars "messages") with
    | some (Json.arr xs) => some xs
    | _ => none
  | _ => none

/-- Result record of sse.ts `parseSSEMessageChunk`. -/
structure ParsedSSEMessageChunk where
  content : List Char
  messageId : Option (List Char)
deriving DecidableEq

/-- sse.ts `parseSSEMessageChunk`, with JS exception flow explicit: when the
`event` property holds a non-nullish non-string, the expression
`eventType?.startsWith(...)` calls `undefined` and throws a `TypeError`. -/
def parseSSEMessageChunk (eventChunk : Json) : Except JsErr (Option ParsedSSEMessageChunk) :=
  if !isObjLike eventChunk then Except.ok none
  else
    match jsGet eventChunk (chars "event") with
    | none => Except.ok none
    | some Json.null => Except.ok none
    | some (Json.str eventType) =>
      if !((chars "messages").isPrefixOf eventType) then Except.ok none
      else
        match extractMessageArray (jsGet eventChunk (chars "data")) with
        | none => Except.ok none
        | some messageArray =>
          match messageArray.getLast? with
          | none => Except.ok none
          | some lastMessage =>
            if !isAssistantMessage (jsGet lastMessage (chars "type")) then Except.ok none
            else
              match extractMessageContent (jsGet lastMessage (chars "content")) with
              | none => Except.ok none
              | some messageText =>
                if (jsTrim messageText).isEmpty then Except.ok none
                else if isInternalRouteDecisionPayload messageText then Except.ok none
                else
                  Except.ok (some ⟨messageText,
                    match jsGet lastMessage (chars "id") with
                    | some (Json.str i) => some i
                    | _ => none⟩)
    | some _ => Except.error JsErr.typeError

/-- sse.ts `parseSSEChunk`: the content of `parseSSEMessageChunk`, or null. -/
def parseSSEChunk (eventChunk : Json) : Except JsErr (Option (List Char)) :=
  match parseSSEMessageChunk eventChunk with
  | Except.ok (some parsedChunk) => Except.ok (some parsedChunk.content)
  | Except.ok none => Except.ok none
  | Except.error e => Except.error e

/-- Is the event discriminator of `eventChunk` exactly `name`? False whenever
the value carries no `event` property or a non-string one. -/
def eventNameIs (eventChunk : Json) (name : List Char) : Bool :=
  match jsGet eventChunk (chars "event") with
  | some (Json.str t) => t == name
  | _ => false

/-- Enumerable own properties of a parsed JSON value, as `Object.entries`
sees them: object fields in first-occurrence key order with the last
duplicate's value, array elements under their decimal indices. -/
def jsEntriesOf : Json → List (List Char × Json)
  | Json.obj fields =>
    ((fields.map Prod.fst).dedup).filterMap
      (fun k => (lookupLast fields k).map (fun v => (k, v)))
  | Json.arr xs => xs.enum.map (fun p => ((Nat.repr p.1).data, p.2))
  | _ => []

/-- sse.ts `extractSSEMessageNodeMetadata`: for a `messages/metadata` event,
the mapping of message id to the `langgraph_node` name found under each
entry's `metadata` wrapper, keeping only non-blank string node names. -/
def extractSSEMessageNodeMetadata (eventChunk : Json) : List (List Char × List Char) :=
  if !(isObjLike eventChunk) || !(eventNameIs eventChunk (chars "messages/metadata")) then []
  else
    match jsGet eventChunk (chars "data") with
    | some metadataEventData =>
      if !isObjLike metadataEventData then []
      else
        (jsEntriesOf metadataEventData).filterMap (fun entry =>
          if !isObjLike entry.2 then none
          else
            match jsGet entry.2 (chars "metadata") with
            | some metadata =>
              if !isObjLike metadata then none
              else
                match jsGet metadata (chars "langgraph_node") with
                | some (Json.str nodeName) =>
                  if (jsTrim nodeName).isEmpty then none else some (entry.1, nodeName)
                | _ => none
            | none => none)
    | none => []

/-- sse.ts `extractSSEErrorMessage`: for an error event, the payload when it
is a string, else its string `message` field, else its string `error` field,
else null. -/
def extractSSEErrorMessage (eventChunk : Json) : Option (List Char) :=
  if !(isObjLike eventChunk) || !(eventNameIs eventChunk (chars "error")) then none
  else
    match jsGet eventChunk (chars "data") with
    | none => none
    | some Json.null => none
    | some (Json.str s) => some s
    | some (Json.obj fields) =>
      match lookupLast fields (chars "message") with
      | some (Json.str m) => some m
      | _ =>
        match lookupLast fields (chars "error") with
        | some (Json.str e2) => some e2
        | _ => none
    | some _ => none

/-- sse.ts `isSSEErrorEvent`. -/
def isSSEErrorEvent (eventChunk : Json) : Bool :=
  isObjLike eventChunk && eventNameIs eventChunk (chars "error")

/-- sse.ts `isSSEErrorData` (type guard: a non-null object with a `message`
or an `error` key). -/
def isSSEErrorData : Json → Bool
  | Json.obj fields =>
    (lookupLast fields (chars "message")).isSome ||
    (lookupLast fields (chars "error")).isSome
  | _ => false

/-- sse.ts `isSSEInterruptedErrorEvent`: an error event whose data passes the
error-data guard and whose `message` field is exactly `"interrupt"`. -/
def isSSEInterruptedErrorEvent (eventChunk : Json) : Bool :=
  if !(isObjLike eventChunk) || !(eventNameIs eventChunk (chars "error")) then false
  else
    match jsGet eventChunk (chars "data") with
    | some eventData =>
      isSSEErrorData eventData &&
      (match jsGet eventData (chars "message") with
       | some (Json.str m) => m == chars "interrupt"
       | _ => false)
    | none => false

/-- sse.ts `parseSSELine`: trim, require the `data:` prefix, strip it, trim
again and `JSON.parse`, with a parse failure caught and turned into null. -/
def parseSSELine (line : List Char) : Option Json :=
  let trimmedLine := jsTrim line
  if !((chars "data:").isPrefixOf trimmedLine) then none
  else jsonParse (jsTrim (trimmedLine.drop 5))

/-- Exception-explicit form of `parseSSELine`: the `try`/`catch` around
`JSON.parse` swallows the `SyntaxError`. -/
def parseSSELineE (line : List Char) : Except JsErr (Option Json) :=
  let trimmedLine := jsTrim line
  if !((chars "data:").isPrefixOf trimmedLine) then Except.ok none
  else
    match jsonParseE (jsTrim (trimmedLine.drop 5)) with
    | Except.ok v => Except.ok (some v)
    | Except.error _ => Except.ok none

/-- Splice a character onto the first segment of a split result (helper for
`splitFrames`). -/
def consHead (c : Char) : List (List Char) → List (List Char)
  | [] => [[c]]
  | t :: ts => (c :: t) :: ts

/-- JS `String.prototype.split` with the two-newline event delimiter:
leftmost, non-overlapping matches. The result is always non-empty. -/
def splitFrames : List Char → List (List Char)
  | [] => [[]]
  | [c] => [[c]]
  | c1 :: c2 :: rest =>
    if c1 = '\n' ∧ c2 = '\n' then [] :: splitFrames rest
    else consHead c1 (splitFrames (c2 :: rest))

/-- Event produced from one complete frame, as `processSSEBuffer` keeps it:
the `event !== null` filter removes both a failed parse and a frame whose
payload is the JSON literal `null` (indistinguishable in JS). -/
def frameEvent (frame : List Char) : Option Json :=
  match parseSSELine frame with
  | some Json.null => none
  | some v => some v
  | none => none

/-- sse.ts `processSSEBuffer`: split on the event delimiter, pop the final
segment as the remaining buffer, parse the complete frames and drop nulls. -/
def processSSEBuffer (bufferString : List Char) : List Json × List Char :=
  let eventStrings := splitFrames bufferString
  (eventStrings.dropLast.filterMap frameEvent, eventStrings.getLastD [])

/-- The buffer loop of sse.ts `readSSEStream`: prepend the previous call's
remaining buffer to each inbound chunk, process, and concatenate the yielded
events. -/
def goChunks : List Char → List Json → List (List Char) → List Json × List Char
  | buffer, acc, [] => (acc, buffer)
  | buffer, acc, chunk :: rest =>
    let pr := processSSEBuffer (buffer ++ chunk)
    goChunks pr.2 (acc ++ pr.1) rest

/-- Feed a chunked stream through `processSSEBuffer` exactly as
`readSSEStream` does, starting from an empty buffer. -/
def readSSEChunked (chunks : List (List Char)) : List Json × List Char :=
  goChunks [] [] chunks

/-- Outcome of one full execution of sse.ts `readSSEStream` against a source:
the events delivered to the consumer, how many times `releaseLock` ran, and
how the run ended. -/
structure StreamRunResult where
  yielded : List Json
  releases : Nat
  threwNoReader : Bool
  readErrored : Bool

/-- The read loop of `readSSEStream`: each read either delivers a chunk or
throws. `limit` models the consumer: `none` pulls to end-of-stream, `some k`
abandons the generator after `k` events (the `finally` then runs via the
generator's return path). Every exit path — end-of-stream, a throwing read,
and abandonment — releases the lock once on the way out. -/
def runReadLoop : List Char → Option Nat → List Json → List (Except Unit (List Char)) → StreamRunResult
  | _, _, acc, [] => ⟨acc, 1, false, false⟩
  | _, some 0, acc, _ :: _ => ⟨acc, 1, false, false⟩
  | _, _, acc, Except.error _ :: _ => ⟨acc, 1, false, true⟩
  | buffer, limit, acc, Except.ok chunk :: rest =>
    match limit with
    | none =>
      runReadLoop (processSSEBuffer (buffer ++ chunk)).2 none
        (acc ++ (processSSEBuffer (buffer ++ chunk)).1) rest
    | some k =>
      if (processSSEBuffer (buffer ++ chunk)).1.length < k then
        runReadLoop (processSSEBuffer (buffer ++ chunk)).2
          (some (k - (processSSEBuffer (buffer ++ chunk)).1.length))
          (acc ++ (processSSEBuffer (buffer ++ chunk)).1) rest
      else ⟨acc ++ (processSSEBuffer (buffer ++ chunk)).1.take k, 1, false, false⟩

/-- sse.ts `readSSEStream`: a missing readable handle throws before the
`try`, so nothing is released; otherwise the guarded read loop runs. -/
def runReadSSEStream (responseBody : Option (List (Except Unit (List Char))))
    (consumerLimit : Option Nat) : StreamRunResult :=
  match responseBody with
  | none => ⟨[], 0, true, false⟩
  | some reads => runReadLoop [] consumerLimit [] reads

/-- Chat message roles (types/chat `MessageRole`). -/
inductive MessageRole where
  | user : MessageRole
  | assistant : MessageRole
deriving DecidableEq

/-- Chat message (types/chat `Message`). -/
structure ChatMessage where
  role : MessageRole
  content : List Char
deriving DecidableEq

/-- useChat `appendAssistantMessage`: on an empty list, start one assistant
message; when the last message is an assistant message, replace its content
(spread keeps the other fields); otherwise append a new assistant message. -/
def appendAssistantMessage (content : List Char) (prev : List ChatMessage) : List ChatMessage :=
  match prev.getLast? with
  | none => [⟨MessageRole.assistant, content⟩]
  | some lastMessage =>
    if lastMessage.role == MessageRole.assistant then
      prev.dropLast ++ [{ lastMessage with content := content }]
    else
      prev ++ [⟨MessageRole.assistant, content⟩]

/-- useChat `extractRunId`: the string `run_id` field of a truthy object
`data` property. -/
def extractRunId (event : Json) : Option (List Char) :=
  match event with
  | Json.obj _ =>
    match jsGet event (chars "data") with
    | some (Json.obj dataFields) =>
      match lookupLast dataFields (chars "run_id") with
      | some (Json.str runId) => some runId
      | _ => none
    | _ => none
  | _ => none

/-- constants/api `ERROR_MESSAGES.STREAMING_ERROR`. -/
def streamingErrorMsg : List Char := chars "Streaming error. Please try again."

/-- constants/api `ERROR_MESSAGES.NO_RUN_ID`. -/
def noRunIdMsg : List Char := chars "No run ID found in event"

/-- constants/api `ERROR_MESSAGES.BACKEND_NOT_READY`. -/
def backendNotReadyMsg : List Char := chars "Still connecting to the chat backend. Please wait a moment."

/-- State touched by the body of useChat `processStreamEvents`: the message
list, the tracked run id, and the error toasts shown so far. -/
structure ChatStreamState where
  messages : List ChatMessage
  currentRunId : Option (List Char)
  errorToasts : List (List Char)
deriving DecidableEq

/-- The error-event arm of the `processStreamEvents` loop body: a
non-interrupted error event replaces the last message with the extracted
error (generic fallback) unless the trailing assistant message already holds
non-blank content, and always shows the error toast; an interrupted error
event does nothing. -/
def errorEventStep (st : ChatStreamState) (event : Json) : ChatStreamState :=
  if isSSEErrorEvent event then
    if !(isSSEInterruptedErrorEvent event) then
      let errorMessage := (extractSSEErrorMessage event).getD streamingErrorMsg
      let newMessages :=
        match st.messages.getLast? with
        | some last =>
          if last.role == MessageRole.assistant && !(jsTrim last.content).isEmpty then
            st.messages
          else
            st.messages.dropLast ++ [⟨MessageRole.assistant, errorMessage⟩]
        | none => st.messages.dropLast ++ [⟨MessageRole.assistant, errorMessage⟩]
      { st with messages := newMessages, errorToasts := st.errorToasts ++ [errorMessage] }
    else st
  else st

/-- JS truthiness of a nullable string (the source tests values like
`!currentRunIdRef.current` and `!threadId`, under which the empty string is
falsy). -/
def truthyOptStr (v : Option (List Char)) : Bool :=
  match v with
  | some s => !s.isEmpty
  | none => false

/-- One iteration of the useChat `processStreamEvents` loop: track the run id
(toasting `NO_RUN_ID` while none is tracked and the event does not carry a
truthy one, except on an interrupted error), then append content or handle an
error event. The exception a bad `event` property raises in `parseSSEChunk`
propagates out of the loop. -/
def processStreamEvent (st : ChatStreamState) (event : Json) : Except JsErr ChatStreamState :=
  let st1 :=
    if truthyOptStr st.currentRunId then st
    else
      match extractRunId event with
      | some runId =>
        if !runId.isEmpty then { st with currentRunId := some runId }
        else if !(isSSEInterruptedErrorEvent event) then
          { st with errorToasts := st.errorToasts ++ [noRunIdMsg] }
        else st
      | none =>
        if !(isSSEInterruptedErrorEvent event) then
          { st with errorToasts := st.errorToasts ++ [noRunIdMsg] }
        else st
  match parseSSEChunk event with
  | Except.error e => Except.error e
  | Except.ok (some content) =>
    if !content.isEmpty then
      Except.ok { st1 with messages := appendAssistantMessage content st1.messages }
    else Except.ok (errorEventStep st1 event)
  | Except.ok none => Except.ok (errorEventStep st1 event)

/-- Connection lifecycle of the chat session (types/chat
`ConnectionStatus`). -/
inductive ConnStatus where
  | idle : ConnStatus
  | connecting : ConnStatus
  | connected : ConnStatus
  | error : ConnStatus
deriving DecidableEq

/-- Session state read and written by the synchronous part of useChat
`submitMessage` before the request is sent. -/
structure SessionState where
  messages : List ChatMessage
  input : List Char
  isLoading : Bool
  connectionStatus : ConnStatus
  threadId : Option (List Char)
  currentRunId : Option (List Char)
  infoToasts : List (List Char)
deriving DecidableEq

/-- The synchronous prefix of useChat `submitMessage`: reject blank input or
an in-flight submission without touching anything; toast and return when not
connected; otherwise push the optimistic user/placeholder pair, clear the
input, set loading and reset the run id. -/
def submitMessageStart (st : SessionState) (messageText : List Char) : SessionState :=
  let trimmedInput := jsTrim messageText
  if trimmedInput.isEmpty || st.isLoading then st
  else if st.connectionStatus != ConnStatus.connected || !(truthyOptStr st.threadId) then
    { st with infoToasts := st.infoToasts ++ [backendNotReadyMsg] }
  else
    { st with
        messages := st.messages ++
          [⟨MessageRole.user, trimmedInput⟩, ⟨MessageRole.assistant, []⟩],
        input := [],
        isLoading := true,
        currentRunId := none }

/-! Frame-reassembly lemmas: JS split on the two-newline delimiter composes
across concatenation, which is what makes chunk-by-chunk decoding agree with
a single whole-buffer pass. -/

theorem consHead_ne_nil (c : Char) (l : List (List Char)) : consHead c l ≠ [] := by
  cases l <;> simp [consHead]

theorem splitFrames_ne_nil (s : List Char) : splitFrames s ≠ [] := by
  induction s using splitFrames.induct with
  | case1 => simp [splitFrames]
  | case2 c => simp [splitFrames]
  | case3 c1 c2 rest hd ih => simp [splitFrames, hd]
  | case4 c1 c2 rest hd ih => simp [splitFrames, hd]; exact consHead_ne_nil _ _

theorem splitFrames_eq_singleton (s : List Char) : ∀ t, splitFrames s = [t] → t = s := by
  induction s using splitFrames.induct with
  | case1 => intro t h; simp [splitFrames] at h; simp [h]
  | case2 c => intro t h; simp [splitFrames] at h; simp [h]
  | case3 c1 c2 rest hd ih =>
    intro t h
    simp [splitFrames, hd] at h
    exact absurd h.2 (splitFrames_ne_nil rest)
  | case4 c1 c2 rest hd ih =>
    intro t h
    rw [show splitFrames (c1 :: c2 :: rest) = consHead c1 (splitFrames (c2 :: rest)) by
      simp [splitFrames, hd]] at h
    match hm : splitFrames (c2 :: rest) with
    | [] => exact absurd hm (splitFrames_ne_nil _)
    | [m] =>
      rw [hm] at h
      have h2 : c1 :: m = t := by simpa [consHead] using h
      rw [← h2, ih m hm]
    | m1 :: m2 :: ms =>
      rw [hm] at h
      simp [consHead] at h

theorem splitFrames_append (s1 s2 : List Char) :
    splitFrames (s1 ++ s2) =
      (splitFrames s1).dropLast ++ splitFrames ((splitFrames s1).getLastD [] ++ s2) := by
  induction s1 using splitFrames.induct with
  | case1 => simp [splitFrames]
  | case2 c => simp [splitFrames]
  | case3 c1 c2 rest hd ih =>
    obtain ⟨h1, h2⟩ := hd
    subst h1; subst h2
    have eL : splitFrames ('\n' :: '\n' :: rest) = [] :: splitFrames rest := by
      simp [splitFrames]
    have eL2 : splitFrames ('\n' :: '\n' :: (rest ++ s2)) = [] :: splitFrames (rest ++ s2) := by
      simp [splitFrames]
    rw [show ('\n' :: '\n' :: rest) ++ s2 = '\n' :: '\n' :: (rest ++ s2) from rfl, eL2, eL, ih,
      List.dropLast_cons_of_ne_nil (splitFrames_ne_nil rest), List.getLastD_cons]
    simp
  | case4 c1 c2 rest hd ih =>
    have eC : splitFrames (c1 :: c2 :: (rest ++ s2))
        = consHead c1 (splitFrames (c2 :: (rest ++ s2))) := by
      simp [splitFrames, hd]
    have eC0 : splitFrames (c1 :: c2 :: rest) = consHead c1 (splitFrames (c2 :: rest)) := by
      simp [splitFrames, hd]
    rw [show (c1 :: c2 :: rest) ++ s2 = c1 :: c2 :: (rest ++ s2) from rfl, eC,
      show c2 :: (rest ++ s2) = (c2 :: rest) ++ s2 from rfl, ih, eC0]
    match hm : splitFrames (c2 :: rest) with
    | [] => exact absurd hm (splitFrames_ne_nil _)
    | [m] =>
      have hms : m = c2 :: rest := splitFrames_eq_singleton _ m hm
      subst hms
      simp only [List.dropLast_single, List.getLastD_cons, List.getLastD_nil, List.nil_append,
        List.dropLast_nil, consHead]
      rw [show (c1 :: c2 :: rest) ++ s2 = c1 :: c2 :: (rest ++ s2) from rfl, eC]
      rcases hx : splitFrames (c2 :: (rest ++ s2)) with _ | ⟨t, ts⟩
      · exact absurd hx (splitFrames_ne_nil _)
      · rw [show (c2 :: rest) ++ s2 = c2 :: (rest ++ s2) from rfl, hx]
        simp [consHead]
    | m1 :: m2 :: ms =>
      have hne2 : (m2 :: ms) ≠ ([] : List (List Char)) := by simp
      simp only [consHead, List.dropLast_cons_of_ne_nil hne2, List.getLastD_cons]
      rfl

theorem processSSEBuffer_append (s1 s2 : List Char) :
    processSSEBuffer (s1 ++ s2) =
      ((processSSEBuffer s1).1 ++ (processSSEBuffer ((processSSEBuffer s1).2 ++ s2)).1,
       (processSSEBuffer ((processSSEBuffer s1).2 ++ s2)).2) := by
  have hB := splitFrames_ne_nil ((splitFrames s1).getLast?.getD [] ++ s2)
  simp only [processSSEBuffer, splitFrames_append s1 s2, List.getLastD_eq_getLast?]
  rw [List.dropLast_append_of_ne_nil _ hB, List.getLast?_append_of_ne_nil _ hB,
    List.filterMap_append]

theorem goChunks_snoc (buffer : List Char) (acc : List Json)
    (chunks : List (List Char)) (chunk : List Char) :
    goChunks buffer acc (chunks ++ [chunk]) =
      ((goChunks buffer acc chunks).1 ++
        (processSSEBuffer ((goChunks buffer acc chunks).2 ++ chunk)).1,
       (processSSEBuffer ((goChunks buffer acc chunks).2 ++ chunk)).2) := by
  induction chunks generalizing buffer acc with
  | nil => simp [goChunks]
  | cons c cs ih => simp [goChunks, ih]

theorem readSSEChunked_eq_whole (chunks : List (List Char)) :
    readSSEChunked chunks = processSSEBuffer chunks.flatten := by
  induction chunks using List.reverseRecOn with
  | nil => rfl
  | append_singleton cs c ih =>
    unfold readSSEChunked at *
    rw [goChunks_snoc, ih, ← processSSEBuffer_append]
    simp

/-! Spec-side restatements used by the refinement claims, and equivalence
lemmas connecting them to the embedded source functions. -/

/-- Condition check inside an `Option` computation. -/
def boolGuard (b : Bool) : Option Unit :=
  if b then some () else none

/-- Inputs on which `parseSSEMessageChunk` throws: the value passes the
object guard and its `event` property holds a non-nullish non-string, so
`eventType?.startsWith` invokes `undefined`. -/
def specEventTypeThrows (v : Json) : Bool :=
  isObjLike v &&
    (match jsGet v (chars "event") with
     | some (Json.str _) => false
     | some Json.null => false
     | some _ => true
     | none => false)

/-- Declarative restatement of the message-chunk contract (amended claim C2):
a chunk is produced exactly when the event passes the object guard, its
discriminator is a string with the reserved message prefix, the payload
resolves to a non-empty message list, the last message has an assistant-like
role, its extracted content is non-blank, and the content is not an internal
route decision; the chunk carries the content as extracted plus the string
message id when present. -/
def specMessageChunk (v : Json) : Option ParsedSSEMessageChunk := do
  let _ ← boolGuard (isObjLike v)
  let eventType ← (match jsGet v (chars "event") with
    | some (Json.str t) => some t
    | _ => none)
  let _ ← boolGuard ((chars "messages").isPrefixOf eventType)
  let messageList ← extractMessageArray (jsGet v (chars "data"))
  let lastMessage ← messageList.getLast?
  let _ ← boolGuard (isAssistantMessage (jsGet lastMessage (chars "type")))
  let content ← extractMessageContent (jsGet lastMessage (chars "content"))
  let _ ← boolGuard (!(jsTrim content).isEmpty)
  let _ ← boolGuard (!isInternalRouteDecisionPayload content)
  pure ⟨content,
    match jsGet lastMessage (chars "id") with
    | some (Json.str i) => some i
    | _ => none⟩

theorem parseSSEMessageChunk_spec (v : Json) :
    parseSSEMessageChunk v =
      if specEventTypeThrows v then Except.error JsErr.typeError
      else Except.ok (specMessageChunk v) := by
  unfold parseSSEMessageChunk specEventTypeThrows specMessageChunk
  cases v with
  | null => rfl
  | bool b => rfl
  | num l => rfl
  | str s => rfl
  | arr xs => rfl
  | obj fields =>
    simp only [isObjLike, Bool.true_and, Bool.not_true, Bool.false_eq_true, if_false]
    cases hev : jsGet (Json.obj fields) (chars "event") with
    | none => simp [boolGuard]
    | some j =>
      cases j with
      | null => simp [boolGuard]
      | bool b => simp [boolGuard]
      | num l => simp [boolGuard]
      | arr ys => simp [boolGuard]
      | obj gs => simp [boolGuard]
      | str t =>
        cases hp : (chars "messages").isPrefixOf t with
        | false =>
          have hp2 : ¬ (chars "messages" <+: t) := by
            simp [← List.isPrefixOf_iff_prefix, hp]
          simp [boolGuard, hp, hp2]
        | true =>
          have hp2 : chars "messages" <+: t := List.isPrefixOf_iff_prefix.mp hp
          cases harr : extractMessageArray (jsGet (Json.obj fields) (chars "data")) with
          | none => simp [boolGuard, hp, hp2, harr]
          | some msgs =>
            cases hlast : msgs.getLast? with
            | none => simp [boolGuard, hp, hp2, harr, hlast]
            | some lastMessage =>
              cases hass : isAssistantMessage (jsGet lastMessage (chars "type")) with
              | false => simp [boolGuard, hp, hp2, harr, hlast, hass]
              | true =>
                cases hc : extractMessageContent (jsGet lastMessage (chars "content")) with
                | none => simp [boolGuard, hp, hp2, harr, hlast, hass, hc]
                | some content =>
                  cases htr : (jsTrim content).isEmpty with
                  | true =>
                    have htr2 : jsTrim content = [] := by simpa using htr
                    simp [boolGuard, hp, hp2, harr, hlast, hass, hc, htr2]
                  | false =>
                    have htr2 : ¬ (jsTrim content = []) := by simpa using htr
                    cases hroute : isInternalRouteDecisionPayload content with
                    | true =>
                      simp [boolGuard, hp, hp2, harr, hlast, hass, hc, htr2, hroute]
                    | false =>
                      simp [boolGuard, hp, hp2, harr, hlast, hass, hc, htr2, hroute]

theorem tryRouteCandidatesE_ok (cs : List (List Char)) :
    tryRouteCandidatesE cs = Except.ok (tryRouteCandidates cs) := by
  induction cs with
  | nil => rfl
  | cons c cs ih =>
    unfold tryRouteCandidates tryRouteCandidatesE jsonParseE
    cases jsonParse c with
    | none => simpa using ih
    | some parsed => cases hr : routeFromParsed parsed <;> simp [hr, ih]

theorem extractRouteDecisionE_ok (s : List Char) :
    extractRouteDecisionE s = Except.ok (extractRouteDecision s) := by
  unfold extractRouteDecisionE extractRouteDecision
  dsimp only
  split
  · rfl
  · split
    · rfl
    · cases hm : matchRouteLine (jsTrim s) with
      | some r => rfl
      | none => simp [hm, tryRouteCandidatesE_ok]

theorem parseSSELineE_ok (line : List Char) :
    parseSSELineE line = Except.ok (parseSSELine line) := by
  unfold parseSSELineE parseSSELine jsonParseE
  dsimp only
  split
  · rfl
  · cases jsonParse (jsTrim ((jsTrim line).drop 5)) <;> rfl

theorem parseSSEChunk_spec (v : Json) :
    parseSSEChunk v =
      if specEventTypeThrows v then Except.error JsErr.typeError
      else Except.ok ((specMessageChunk v).map ParsedSSEMessageChunk.content) := by
  unfold parseSSEChunk
  rw [parseSSEMessageChunk_spec]
  cases h : specEventTypeThrows v with
  | true => rfl
  | false => cases specMessageChunk v <;> rfl

/-- Shape (a) of the route-decision filter as the spec states it: exactly
the keyword `direct` or `retrieve`, case-insensitively, after trimming. -/
def specShapeKeyword (s : List Char) : Bool :=
  jsToLower (jsTrim s) == chars "direct" || jsToLower (jsTrim s) == chars "retrieve"

/-- Shape (b): a line of the form `route[:=]` followed by the keyword and an
optional period, case-insensitively, spanning the whole trimmed text. -/
def specShapeRouteLine (s : List Char) : Bool :=
  (matchRouteLine (jsTrim s)).isSome

/-- Is a candidate string valid JSON whose top-level object routes to
`direct` or `retrieve` with keys among route, reason, explanation? -/
def specRouteJsonShape (c : List Char) : Bool :=
  match jsonParse c with
  | some (Json.obj fields) =>
    (match lookupLast fields (chars "route") with
     | some (Json.str rv) => rv == chars "direct" || rv == chars "retrieve"
     | _ => false) &&
    fields.all (fun f =>
      f.1 == chars "route" || f.1 == chars "reason" || f.1 == chars "explanation")
  | _ => false

/-- Shape (c): the trimmed text, or the body of its fenced code block, is a
route-decision JSON object. -/
def specShapeRouteJson (s : List Char) : Bool :=
  specRouteJsonShape (jsTrim s) ||
  (match fencedGroup (jsTrim s) with
   | some g => specRouteJsonShape g
   | none => false)

theorem specRouteJsonShape_eq (c : List Char) :
    specRouteJsonShape c =
      (match jsonParse c with
       | some p => (routeFromParsed p).isSome
       | none => false) := by
  unfold specRouteJsonShape routeFromParsed
  cases jsonParse c with
  | none => rfl
  | some p =>
    cases p with
    | null => rfl
    | bool b => rfl
    | num l => rfl
    | str t => rfl
    | arr xs => rfl
    | obj fields =>
      cases hr : lookupLast fields (chars "route") with
      | none => simp [hr]
      | some rv =>
        cases rv with
        | str rvs =>
          cases hA : (rvs == chars "direct" || rvs == chars "retrieve") with
          | false => simp [hr, hA]
          | true =>
            cases hB : fields.all (fun f =>
                f.1 == chars "route" || f.1 == chars "reason" ||
                  f.1 == chars "explanation") with
            | false => simp [hr, hA, hB]
            | true => simp [hr, hA, hB]
        | null => simp [hr]
        | bool b => simp [hr]
        | num l => simp [hr]
        | arr xs => simp [hr]
        | obj gs => simp [hr]

theorem tryRouteCandidates_isSome (cs : List (List Char)) :
    (tryRouteCandidates cs).isSome = cs.any specRouteJsonShape := by
  induction cs with
  | nil => rfl
  | cons c cs ih =>
    unfold tryRouteCandidates
    cases hj : jsonParse c with
    | none => simp [specRouteJsonShape_eq, hj, ih]
    | some p =>
      cases hrp : routeFromParsed p with
      | some r => simp [specRouteJsonShape_eq, hj, hrp]
      | none => simp [specRouteJsonShape_eq, hj, hrp, ih]

theorem extractRouteDecision_isSome (s : List Char) :
    (extractRouteDecision s).isSome =
      (specShapeKeyword s || specShapeRouteLine s || specShapeRouteJson s) := by
  unfold extractRouteDecision specShapeKeyword specShapeRouteLine specShapeRouteJson
  by_cases h0 : (jsTrim s).isEmpty
  · have h0e : jsTrim s = [] := by simpa using h0
    simp [h0e, matchRouteLine, ciConsume, jsToLower, chars, fencedGroup, specRouteJsonShape,
      jsonParse, parseJsonValue, skipJsonWs]
  · have h0e : ¬ ((jsTrim s).isEmpty = true) := by simpa using h0
    cases hkw : (jsToLower (jsTrim s) == chars "direct" ||
        jsToLower (jsTrim s) == chars "retrieve") with
    | true => simp [h0e, hkw]
    | false =>
      cases hline : matchRouteLine (jsTrim s) with
      | some r => simp [h0e, hkw, hline]
      | none =>
        cases hf : fencedGroup (jsTrim s) with
        | none => simp [h0e, hkw, hline, hf, tryRouteCandidates_isSome]
        | some g => simp [h0e, hkw, hline, hf, tryRouteCandidates_isSome]

/-! Claim theorems. -/

/-- Claim C1: feeding any chunking of a buffer through `processSSEBuffer`,
each call on the previous remainder concatenated with the next chunk, yields
the same ordered event sequence and final remainder as one pass over the
whole concatenation; and the events of a pass come only from the split
segments before the last one, so the final split segment is never emitted as
a frame. -/
theorem claim_C1_frame_reassembly :
    (∀ chunks : List (List Char), readSSEChunked chunks = processSSEBuffer chunks.flatten) ∧
    (∀ bufferString : List Char,
      processSSEBuffer bufferString =
        ((splitFrames bufferString).dropLast.filterMap frameEvent,
         (splitFrames bufferString).getLastD [])) :=
  ⟨readSSEChunked_eq_whole, fun _ => rfl⟩

/-- Claim C2, counterexample: the source has no filter for JSON-looking
content starting with an opening brace (a valid JSON object whose keys are
not route-decision keys is returned verbatim), and the returned content is
not trimmed (string content `" hello "` comes back with its spaces). -/
theorem claim_C2_counterexample :
    parseSSEMessageChunk
        (Json.obj [(chars "event", Json.str (chars "messages")),
          (chars "data", Json.arr [Json.obj [(chars "type", Json.str (chars "ai")),
            (chars "content", Json.str (chars "\x7b\"foo\":1\x7d"))]])]) =
      Except.ok (some ⟨chars "\x7b\"foo\":1\x7d", none⟩) ∧
    (chars "\x7b\"foo\":1\x7d").head? = some '\x7b' ∧
    parseSSEMessageChunk
        (Json.obj [(chars "event", Json.str (chars "messages")),
          (chars "data", Json.arr [Json.obj [(chars "type", Json.str (chars "ai")),
            (chars "content", Json.str (chars " hello "))]])]) =
      Except.ok (some ⟨chars " hello ", none⟩) ∧
    jsTrim (chars " hello ") ≠ chars " hello " :=
  ⟨rfl, rfl, rfl, by decide⟩

/-- Claim C2, amended: `parseSSEMessageChunk` behaves exactly as the
declarative `specMessageChunk` contract — null unless the discriminator is a
string starting with the message prefix, the payload resolves to a non-empty
message list whose last element is assistant-like with non-blank content that
is not an internal route decision; it returns the content as extracted (not
re-trimmed) plus the string id, throws a TypeError on a non-nullish
non-string `event` property, and has no JSON-looking-text filter. The spec's
own examples evaluate accordingly. -/
theorem claim_C2_amended :
    (∀ v, parseSSEMessageChunk v =
      if specEventTypeThrows v then Except.error JsErr.typeError
      else Except.ok (specMessageChunk v)) ∧
    parseSSEMessageChunk (Json.obj [(chars "event", Json.str (chars "messages")),
        (chars "data", Json.arr [Json.obj [(chars "type", Json.str (chars "ai")),
          (chars "content", Json.str (chars "hello"))]])]) =
      Except.ok (some ⟨chars "hello", none⟩) ∧
    parseSSEMessageChunk (Json.obj [(chars "event", Json.str (chars "messages")),
        (chars "data", Json.arr [Json.obj [(chars "type", Json.str (chars "human")),
          (chars "content", Json.str (chars "hi"))]])]) = Except.ok none ∧
    parseSSEMessageChunk (Json.obj [(chars "event", Json.str (chars "messages")),
        (chars "data", Json.arr [Json.obj [(chars "type", Json.str (chars "ai")),
          (chars "content", Json.str (chars "\x7b\"route\":\"direct\"\x7d"))]])]) =
      Except.ok none :=
  ⟨parseSSEMessageChunk_spec, rfl, rfl, rfl⟩

/-- Claim C3: the internal-payload filter accepts exactly the texts matching
one of the three recognised shapes (bare keyword, route line, route JSON
object, the latter optionally fenced) whose trimmed length is at most 240;
in particular it accepts "retrieve" and rejects the moon sentence. -/
theorem claim_C3_route_filter :
    (∀ s, isInternalRouteDecisionPayload s =
      ((specShapeKeyword s || specShapeRouteLine s || specShapeRouteJson s) &&
        decide ((jsTrim s).length ≤ 240))) ∧
    isInternalRouteDecisionPayload (chars "retrieve") = true ∧
    isInternalRouteDecisionPayload
      (chars "Please retrieve the moon for me, it\x27s a nice view tonight") = false := by
  refine ⟨fun s => ?_, by decide, by decide⟩
  unfold isInternalRouteDecisionPayload
  cases hrd : extractRouteDecision s with
  | none =>
    have h2 : (specShapeKeyword s || specShapeRouteLine s || specShapeRouteJson s) = false := by
      rw [← extractRouteDecision_isSome, hrd]; rfl
    simp [h2]
  | some r =>
    have h2 : (specShapeKeyword s || specShapeRouteLine s || specShapeRouteJson s) = true := by
      rw [← extractRouteDecision_isSome, hrd]; rfl
    simp [h2]

/-- Claim C7: `parseSSELine` returns null unless the trimmed frame starts
with the data prefix, otherwise strips it, trims and JSON-decodes, returning
null instead of throwing on malformed payloads; with the spec's examples. -/
theorem claim_C7_parse_line :
    (∀ line, parseSSELine line =
      (if (chars "data:").isPrefixOf (jsTrim line) then
        jsonParse (jsTrim ((jsTrim line).drop 5))
      else none)) ∧
    (∀ line, parseSSELineE line = Except.ok (parseSSELine line)) ∧
    parseSSELine (chars "data: \x7b\"a\":1\x7d") =
      some (Json.obj [(chars "a", Json.num (chars "1"))]) ∧
    parseSSELine (chars "not-data") = none ∧
    parseSSELine (chars "data: \x7bbad json") = none := by
  refine ⟨fun line => ?_, parseSSELineE_ok, rfl, rfl, rfl⟩
  unfold parseSSELine
  by_cases h : (chars "data:").isPrefixOf (jsTrim line) <;> simp [h]

/-- Claim C8: a `submitMessage` call with blank input or while a submission
is already in flight returns before touching any session state. -/
theorem claim_C8_submit_guard (st : SessionState) (text : List Char)
    (h : jsTrim text = [] ∨ st.isLoading = true) :
    submitMessageStart st text = st := by
  unfold submitMessageStart
  rcases h with h | h <;> simp [h]

/-- Witness for claim C8 at concrete states: an in-flight submission and a
whitespace-only input are both rejected unchanged. -/
theorem claim_C8_submit_guard_witness :
    submitMessageStart ⟨[], [], true, ConnStatus.connected, some (chars "t1"), none, []⟩
      (chars "hello") = ⟨[], [], true, ConnStatus.connected, some (chars "t1"), none, []⟩ ∧
    submitMessageStart ⟨[], [], false, ConnStatus.connected, some (chars "t1"), none, []⟩
      (chars "   ") = ⟨[], [], false, ConnStatus.connected, some (chars "t1"), none, []⟩ :=
  ⟨claim_C8_submit_guard _ _ (Or.inr rfl), claim_C8_submit_guard _ _ (Or.inl (by decide))⟩

/-- Claim C9: delivering accumulated content replaces the trailing assistant
message in place (earlier messages and length unchanged), and appends a
single fresh assistant message on an empty list or after a user message. -/
theorem claim_C9_append_replaces :
    (∀ c, appendAssistantMessage c [] = [⟨MessageRole.assistant, c⟩]) ∧
    (∀ (init : List ChatMessage) (s c : List Char),
      appendAssistantMessage c (init ++ [⟨MessageRole.assistant, s⟩]) =
        init ++ [⟨MessageRole.assistant, c⟩]) ∧
    (∀ (init : List ChatMessage) (s c : List Char),
      appendAssistantMessage c (init ++ [⟨MessageRole.user, s⟩]) =
        init ++ [⟨MessageRole.user, s⟩, ⟨MessageRole.assistant, c⟩]) := by
  refine ⟨fun c => rfl, fun init s c => ?_, fun init s c => ?_⟩
  · unfold appendAssistantMessage
    rw [List.getLast?_concat]
    simp [List.dropLast_concat]
  · unfold appendAssistantMessage
    rw [List.getLast?_concat]
    simp

/-- Claim C10, counterexample: `parseSSEMessageChunk` is not total on
arbitrary decoded values — an object whose `event` property is the number 5
makes `eventType?.startsWith` call `undefined`, a TypeError. -/
theorem claim_C10_counterexample :
    parseSSEMessageChunk (Json.obj [(chars "event", Json.num (chars "5"))]) =
      Except.error JsErr.typeError :=
  rfl

/-- Claim C10, amended: `parseSSEMessageChunk` and `parseSSEChunk` throw
precisely on values whose `event` property is a non-nullish non-string; on
every other input they return normally, and every `JSON.parse` the SSE
module can reach is guarded — the exception-explicit route-decision and line
parsers never propagate an error. -/
theorem claim_C10_amended :
    (∀ v, (∃ err, parseSSEMessageChunk v = Except.error err) ↔ specEventTypeThrows v = true) ∧
    (∀ v, (∃ err, parseSSEChunk v = Except.error err) ↔ specEventTypeThrows v = true) ∧
    (∀ s, extractRouteDecisionE s = Except.ok (extractRouteDecision s)) ∧
    (∀ line, parseSSELineE line = Except.ok (parseSSELine line)) := by
  refine ⟨fun v => ?_, fun v => ?_, extractRouteDecisionE_ok, parseSSELineE_ok⟩
  · rw [parseSSEMessageChunk_spec]
    cases h : specEventTypeThrows v <;> simp
  · rw [parseSSEChunk_spec]
    cases h : specEventTypeThrows v <;> simp

theorem parseSSEChunk_of_error_event (e : Json) (h : isSSEErrorEvent e = true) :
    parseSSEChunk e = Except.ok none := by
  unfold isSSEErrorEvent eventNameIs at h
  cases e with
  | null => simp [isObjLike] at h
  | bool b => simp [isObjLike] at h
  | num l => simp [isObjLike] at h
  | str s => simp [isObjLike] at h
  | arr xs => simp [jsGet] at h
  | obj fields =>
    cases hev : jsGet (Json.obj fields) (chars "event") with
    | none => rw [hev] at h; simp at h
    | some j =>
      cases j with
      | null => rw [hev] at h; simp at h
      | bool b => rw [hev] at h; simp at h
      | num l => rw [hev] at h; simp at h
      | arr ys => rw [hev] at h; simp at h
      | obj gs => rw [hev] at h; simp at h
      | str t =>
        have ht : t = chars "error" := by
          rw [hev] at h
          exact (by simpa using h : isObjLike (Json.obj fields) = true ∧ t = chars "error").2
        subst ht
        unfold parseSSEChunk parseSSEMessageChunk
        simp [isObjLike, hev,
          show (chars "messages").isPrefixOf (chars "error") = false from by decide]

/-- Is the last message an assistant message whose content is non-blank
(the test guarding the replace-on-error path of `processStreamEvents`)? -/
def trailingAssistantHasContent (messages : List ChatMessage) : Bool :=
  match messages.getLast? with
  | some last => last.role == MessageRole.assistant && !(jsTrim last.content).isEmpty
  | none => false

theorem errorEventStep_spec (st : ChatStreamState) (e : Json)
    (herr : isSSEErrorEvent e = true) (hint : isSSEInterruptedErrorEvent e = false) :
    errorEventStep st e =
      { st with
          messages :=
            if trailingAssistantHasContent st.messages then st.messages
            else st.messages.dropLast ++
              [⟨MessageRole.assistant, (extractSSEErrorMessage e).getD streamingErrorMsg⟩],
          errorToasts :=
            st.errorToasts ++ [(extractSSEErrorMessage e).getD streamingErrorMsg] } := by
  unfold errorEventStep trailingAssistantHasContent
  cases hl : st.messages.getLast? with
  | none => simp [herr, hint, hl]
  | some last =>
    cases hcond : (last.role == MessageRole.assistant && !(jsTrim last.content).isEmpty) with
    | true => simp [herr, hint, hl, hcond]
    | false => simp [herr, hint, hl, hcond]

/-- Claim C4, counterexample: with partial streamed content present, a
non-interrupted error event leaves the message list unchanged but still
surfaces the error — the toast list grows, contradicting "preserved
silently". -/
theorem claim_C4_counterexample :
    processStreamEvent
        ⟨[⟨MessageRole.user, chars "q"⟩, ⟨MessageRole.assistant, chars "The answer"⟩],
          some (chars "run-1"), []⟩
        (Json.obj [(chars "event", Json.str (chars "error")),
          (chars "data", Json.obj [(chars "message", Json.str (chars "boom"))])]) =
      Except.ok
        ⟨[⟨MessageRole.user, chars "q"⟩, ⟨MessageRole.assistant, chars "The answer"⟩],
          some (chars "run-1"), [chars "boom"]⟩ ∧
    [chars "boom"] ≠ ([] : List (List Char)) :=
  ⟨rfl, by decide⟩

/-- Claim C4, amended: during a submission (run id tracked), a non-interrupted
error event always appends the extracted error (generic fallback) to the
error toasts — the error is surfaced even over partial content — while the
message list is preserved exactly when the trailing assistant message holds
non-blank content and otherwise has its last entry replaced by the error
text. -/
theorem claim_C4_amended (st : ChatStreamState) (e : Json)
    (herr : isSSEErrorEvent e = true) (hint : isSSEInterruptedErrorEvent e = false)
    (hrid : truthyOptStr st.currentRunId = true) :
    processStreamEvent st e =
      Except.ok
        { st with
            messages :=
              if trailingAssistantHasContent st.messages then st.messages
              else st.messages.dropLast ++
                [⟨MessageRole.assistant, (extractSSEErrorMessage e).getD streamingErrorMsg⟩],
            errorToasts :=
              st.errorToasts ++ [(extractSSEErrorMessage e).getD streamingErrorMsg] } := by
  unfold processStreamEvent
  rw [parseSSEChunk_of_error_event e herr]
  simp only [hrid, if_true]
  rw [errorEventStep_spec st e herr hint]

/-- Witness for claim C4 at a concrete state: partial content "partial" is
kept, and the toast "boom" is still shown. -/
theorem claim_C4_amended_witness :
    processStreamEvent
        ⟨[⟨MessageRole.user, chars "q"⟩, ⟨MessageRole.assistant, chars "partial"⟩],
          some (chars "run-1"), []⟩
        (Json.obj [(chars "event", Json.str (chars "error")),
          (chars "data", Json.obj [(chars "message", Json.str (chars "boom"))])]) =
      Except.ok
        ⟨[⟨MessageRole.user, chars "q"⟩, ⟨MessageRole.assistant, chars "partial"⟩],
          some (chars "run-1"), [chars "boom"]⟩ :=
  (claim_C4_amended
      ⟨[⟨MessageRole.user, chars "q"⟩, ⟨MessageRole.assistant, chars "partial"⟩],
        some (chars "run-1"), []⟩
      (Json.obj [(chars "event", Json.str (chars "error")),
        (chars "data", Json.obj [(chars "message", Json.str (chars "boom"))])])
      rfl rfl rfl).trans rfl

/-- Declarative shape of an interrupted-error event (claim C5): an error
event whose data object carries a `message` field equal to the literal
`"interrupt"`. -/
def specInterruptedEvent (e : Json) : Bool :=
  eventNameIs e (chars "error") &&
    (match jsGet e (chars "data") with
     | some d =>
       (match jsGet d (chars "message") with
        | some (Json.str m) => m == chars "interrupt"
        | _ => false)
     | none => false)

theorem isSSEInterruptedErrorEvent_spec (e : Json) :
    isSSEInterruptedErrorEvent e = specInterruptedEvent e := by
  unfold isSSEInterruptedErrorEvent specInterruptedEvent isSSEErrorData
  cases e with
  | null => simp [isObjLike, eventNameIs, jsGet]
  | bool b => simp [isObjLike, eventNameIs, jsGet]
  | num l => simp [isObjLike, eventNameIs, jsGet]
  | str s => simp [isObjLike, eventNameIs, jsGet]
  | arr xs => simp [isObjLike, eventNameIs, jsGet]
  | obj fields =>
    cases hev : eventNameIs (Json.obj fields) (chars "error") with
    | false => simp [isObjLike, hev]
    | true =>
      simp only [isObjLike, hev, Bool.not_true, Bool.false_eq_true, if_false, Bool.true_and,
        Bool.false_or, Bool.or_false]
      cases hd : jsGet (Json.obj fields) (chars "data") with
      | none => simp [hd]
      | some d =>
        cases d with
        | null => simp [hd, jsGet]
        | bool b => simp [hd, jsGet]
        | num l => simp [hd, jsGet]
        | str s => simp [hd, jsGet]
        | arr ys => simp [hd, jsGet]
        | obj gs =>
          cases hm : lookupLast gs (chars "message") with
          | none => simp [hd, jsGet, hm]
          | some mv => cases mv <;> simp [hd, jsGet, hm]

theorem isSSEErrorEvent_of_interrupted (e : Json)
    (h : isSSEInterruptedErrorEvent e = true) : isSSEErrorEvent e = true := by
  unfold isSSEInterruptedErrorEvent at h
  unfold isSSEErrorEvent
  by_cases h1 : isObjLike e = true <;>
    by_cases h2 : eventNameIs e (chars "error") = true <;> simp_all

/-- Claim C5: an event is an interrupted error exactly when it is an error
event whose data's `message` field is the literal `"interrupt"`; processing
such an event changes neither the message list nor the error toasts (only
the tracked run id may be recorded), so a stopped submission keeps its
partial content "The answer is 4" with no toast. -/
theorem claim_C5_interrupted :
    (∀ e, isSSEInterruptedErrorEvent e = specInterruptedEvent e) ∧
    (∀ (st : ChatStreamState) (e : Json), isSSEInterruptedErrorEvent e = true →
      ∃ rid, processStreamEvent st e = Except.ok { st with currentRunId := rid }) ∧
    processStreamEvent
        ⟨[⟨MessageRole.user, chars "What is 2+2?"⟩,
          ⟨MessageRole.assistant, chars "The answer is 4"⟩], some (chars "run-1"), []⟩
        (Json.obj [(chars "event", Json.str (chars "error")),
          (chars "data", Json.obj [(chars "message", Json.str (chars "interrupt"))])]) =
      Except.ok ⟨[⟨MessageRole.user, chars "What is 2+2?"⟩,
          ⟨MessageRole.assistant, chars "The answer is 4"⟩], some (chars "run-1"), []⟩ := by
  refine ⟨isSSEInterruptedErrorEvent_spec, fun st e h => ?_, rfl⟩
  have herr := isSSEErrorEvent_of_interrupted e h
  unfold processStreamEvent
  rw [parseSSEChunk_of_error_event e herr]
  cases hcr : truthyOptStr st.currentRunId with
  | true =>
    refine ⟨st.currentRunId, ?_⟩
    simp [hcr, errorEventStep, herr, h]
  | false =>
    cases hrun : extractRunId e with
    | some rid =>
      cases hemp : rid.isEmpty with
      | false =>
        refine ⟨some rid, ?_⟩
        simp [hcr, hrun, hemp, errorEventStep, herr, h]
      | true =>
        refine ⟨st.currentRunId, ?_⟩
        simp [hcr, hrun, hemp, errorEventStep, herr, h]
    | none =>
      refine ⟨st.currentRunId, ?_⟩
      simp [hcr, hrun, errorEventStep, herr, h]

/-- Witness for claim C5 at a concrete state: the partial assistant message
survives an interrupted-error event untouched, with no toast. -/
theorem claim_C5_interrupted_witness :
    ∃ rid, processStreamEvent
        ⟨[⟨MessageRole.assistant, chars "The answer is 4"⟩], none, []⟩
        (Json.obj [(chars "event", Json.str (chars "error")),
          (chars "data", Json.obj [(chars "message", Json.str (chars "interrupt"))])]) =
      Except.ok ⟨[⟨MessageRole.assistant, chars "The answer is 4"⟩], rid, []⟩ :=
  claim_C5_interrupted.2.1
    ⟨[⟨MessageRole.assistant, chars "The answer is 4"⟩], none, []⟩
    (Json.obj [(chars "event", Json.str (chars "error")),
      (chars "data", Json.obj [(chars "message", Json.str (chars "interrupt"))])])
    rfl

theorem runReadLoop_invariant (buffer : List Char) (limit : Option Nat) (acc : List Json)
    (reads : List (Except Unit (List Char))) :
    (runReadLoop buffer limit acc reads).releases = 1 ∧
    (runReadLoop buffer limit acc reads).threwNoReader = false := by
  induction buffer, limit, acc, reads using runReadLoop.induct <;>
    ((try simp_all [runReadLoop]); (try (split <;> first | omega | simp_all)))

/-- Claim C6: `readSSEStream` throws its no-reader error exactly when the
response body exposes no readable handle (and then releases nothing, since
the reader was never acquired); on every run that does acquire the reader —
normal end-of-stream, a throwing read, and early abandonment by the consumer
at any point — the lock is released exactly once. -/
theorem claim_C6_reader_release :
    (∀ body limit, (runReadSSEStream body limit).threwNoReader = true ↔ body = none) ∧
    (∀ limit, runReadSSEStream none limit = ⟨[], 0, true, false⟩) ∧
    (∀ reads limit, (runReadSSEStream (some reads) limit).releases = 1) ∧
    (runReadSSEStream none none).releases = 0 := by
  refine ⟨fun body limit => ?_, fun limit => rfl,
    fun reads limit => (runReadLoop_invariant [] limit [] reads).1, rfl⟩
  cases body with
  | none => simp [runReadSSEStream]
  | some reads =>
    simp [runReadSSEStream, (runReadLoop_invariant [] limit [] reads).2]
